import Mathlib

/-!
Shallow embedding of the option-pricing repository: the Monte Carlo engine
(`monte_carlo.py`) and the Cox-Ross-Rubinstein binomial lattice engine
(`binomial_model.py`).

Modelling conventions:
* Python floats in the specification objects are modelled as `ℚ` (every
  concrete float literal is rational, and the validation logic only compares
  them with 0, which is decidable over `ℚ`); simulated prices and pricing
  results live in `ℝ` because the algorithms use `exp` and `sqrt`.
* Python `int` fields are `ℤ`; loop bounds use `Int.toNat`, matching
  Python `range`, which is empty for non-positive arguments.
* A `raise ValueError(msg)` in a constructor or factory is modelled as
  `Except.error msg`; a normal return as `Except.ok`.
* The pseudo-random source `random.Random(spec.seed)` is modelled by an
  abstract draw stream `gauss : ℕ → ℝ` (the sequence of standard-normal
  variates the seeded generator produces); each call to `rng.gauss`
  consumes the next index of the stream, which the embedding threads
  through the loops as an explicit counter.  The stream is a function of
  the seed alone, so the embedding of `monte_carlo_price` is a pure
  function of the spec, the payoff, and that stream.
* A payoff callable that may raise is modelled by a second engine
  `monte_carlo_priceE` over `List ℝ → Except ε ℝ`; the exception
  semantics of the Python `for` loop (the first raise aborts the loop and
  propagates) is the standard `Except` threading.
-/

namespace MonteCarlo

/-- The `MonteCarloSpec` dataclass of `monte_carlo.py` (fields only;
the `__post_init__` validation is `mkMonteCarloSpec` below). -/
structure MonteCarloSpec where
  spot : ℚ
  maturity : ℚ
  rate : ℚ
  volatility : ℚ
  simulations : ℤ
  steps : ℤ
  seed : Option ℤ
deriving DecidableEq

/-- `MonteCarloSpec.__post_init__`: the dataclass constructor including the
validation checks, in source order (spot, maturity, volatility,
simulations, steps); `rate` and `seed` are never checked. -/
def mkMonteCarloSpec (spot maturity rate volatility : ℚ)
    (simulations steps : ℤ) (seed : Option ℤ) : Except String MonteCarloSpec :=
  if spot ≤ 0 then Except.error "Spot must be positive"
  else if maturity ≤ 0 then Except.error "Maturity must be positive"
  else if volatility ≤ 0 then Except.error "Volatility must be positive"
  else if simulations ≤ 0 then Except.error "Number of simulations must be positive"
  else if steps ≤ 0 then Except.error "Number of time steps must be positive"
  else Except.ok ⟨spot, maturity, rate, volatility, simulations, steps, seed⟩

/-- The inner `_payoff` closure built by `european_call_payoff`:
`max(path[-1] - strike, 0.0)`. -/
noncomputable def callPayoff (strike : ℚ) (path : List ℝ) : ℝ :=
  max (path.getLastD 0 - (strike : ℝ)) 0

/-- The inner `_payoff` closure built by `european_put_payoff`:
`max(strike - path[-1], 0.0)`. -/
noncomputable def putPayoff (strike : ℚ) (path : List ℝ) : ℝ :=
  max ((strike : ℝ) - path.getLastD 0) 0

/-- `european_call_payoff`: validates the strike, then returns the payoff
closure. -/
noncomputable def european_call_payoff (strike : ℚ) :
    Except String (List ℝ → ℝ) :=
  if strike ≤ 0 then Except.error "Strike must be positive"
  else Except.ok (callPayoff strike)

/-- `european_put_payoff`: validates the strike, then returns the payoff
closure. -/
noncomputable def european_put_payoff (strike : ℚ) :
    Except String (List ℝ → ℝ) :=
  if strike ≤ 0 then Except.error "Strike must be positive"
  else Except.ok (putPayoff strike)

/-- The inner path loop of `monte_carlo_price`: `for _ in range(steps)`
updates `price *= exp(drift + diffusion * z)` and appends to `path`.
State is (current price, next draw index, path so far); the first
argument counts the remaining iterations. -/
noncomputable def pathLoop (gauss : ℕ → ℝ) (drift diffusion : ℝ) :
    ℕ → ℝ × ℕ × List ℝ → ℝ × ℕ × List ℝ
  | 0, st => st
  | n + 1, (price, ctr, path) =>
    let z := gauss ctr
    let price2 := price * Real.exp (drift + diffusion * z)
    pathLoop gauss drift diffusion n (price2, ctr + 1, path ++ [price2])

/-- The outer trial loop of `monte_carlo_price`: `for _ in
range(simulations)` simulates one path from `spot` and accumulates
`payoff_fn(path)` into the running total.  Arguments after the
parameters: remaining trials, next draw index, running total. -/
noncomputable def trialLoop (gauss : ℕ → ℝ) (payoff_fn : List ℝ → ℝ)
    (spot drift diffusion : ℝ) (steps : ℕ) : ℕ → ℕ → ℝ → ℝ
  | 0, _, total => total
  | n + 1, ctr, total =>
    let res := pathLoop gauss drift diffusion steps (spot, ctr, [spot])
    trialLoop gauss payoff_fn spot drift diffusion steps n res.2.1
      (total + payoff_fn res.2.2)

/-- `monte_carlo_price` of `monte_carlo.py`, with the seeded random source
abstracted as the draw stream `gauss` (see the module docstring above). -/
noncomputable def monte_carlo_price (gauss : ℕ → ℝ) (spec : MonteCarloSpec)
    (payoff_fn : List ℝ → ℝ) : ℝ :=
  let dt : ℝ := (spec.maturity : ℝ) / (spec.steps : ℝ)
  let drift : ℝ := ((spec.rate : ℝ) - 0.5 * (spec.volatility : ℝ) ^ 2) * dt
  let diffusion : ℝ := (spec.volatility : ℝ) * Real.sqrt dt
  let total_payoff : ℝ :=
    trialLoop gauss payoff_fn (spec.spot : ℝ) drift diffusion
      spec.steps.toNat spec.simulations.toNat 0 0
  let expected_payoff : ℝ := total_payoff / (spec.simulations : ℝ)
  let discount_factor : ℝ := Real.exp (-(spec.rate : ℝ) * (spec.maturity : ℝ))
  discount_factor * expected_payoff

/-- The outer trial loop again, for a payoff callable that may fail: the
first failing payoff evaluation aborts the loop and propagates its error
(the exception semantics of the Python `for` loop). -/
noncomputable def trialLoopE {ε : Type} (gauss : ℕ → ℝ)
    (payoff_fn : List ℝ → Except ε ℝ) (spot drift diffusion : ℝ)
    (steps : ℕ) : ℕ → ℕ → ℝ → Except ε ℝ
  | 0, _, total => Except.ok total
  | n + 1, ctr, total =>
    let res := pathLoop gauss drift diffusion steps (spot, ctr, [spot])
    match payoff_fn res.2.2 with
    | Except.error e => Except.error e
    | Except.ok v =>
      trialLoopE gauss payoff_fn spot drift diffusion steps n res.2.1
        (total + v)

/-- `monte_carlo_price` for a payoff callable that may fail: identical to
`monte_carlo_price`, except that a payoff failure on some path aborts the
whole call and propagates, so the averaging and discounting after the
loop only happen when every payoff evaluation succeeded. -/
noncomputable def monte_carlo_priceE {ε : Type} (gauss : ℕ → ℝ)
    (spec : MonteCarloSpec) (payoff_fn : List ℝ → Except ε ℝ) : Except ε ℝ :=
  let dt : ℝ := (spec.maturity : ℝ) / (spec.steps : ℝ)
  let drift : ℝ := ((spec.rate : ℝ) - 0.5 * (spec.volatility : ℝ) ^ 2) * dt
  let diffusion : ℝ := (spec.volatility : ℝ) * Real.sqrt dt
  (trialLoopE gauss payoff_fn (spec.spot : ℝ) drift diffusion
      spec.steps.toNat spec.simulations.toNat 0 0).map fun total_payoff =>
    Real.exp (-(spec.rate : ℝ) * (spec.maturity : ℝ)) *
      (total_payoff / (spec.simulations : ℝ))

/-- Specification-side price recurrence: the price after `k` of the GBM
update steps of a trial whose first draw has index `start`, defined
directly by `price_0 = spot`, `price_(k+1) = price_k · exp(drift +
diffusion · z_k)` with `z_k = gauss (start + k)`. -/
noncomputable def gbmPrice (gauss : ℕ → ℝ) (drift diffusion spot : ℝ)
    (start : ℕ) : ℕ → ℝ
  | 0 => spot
  | k + 1 =>
    gbmPrice gauss drift diffusion spot start k *
      Real.exp (drift + diffusion * gauss (start + k))

/-- Specification-side path: the list of all `steps + 1` intermediate
prices of one trial, starting at `spot`. -/
noncomputable def gbmPath (gauss : ℕ → ℝ) (drift diffusion spot : ℝ)
    (start steps : ℕ) : List ℝ :=
  (List.range (steps + 1)).map (gbmPrice gauss drift diffusion spot start)

/-- The `dt` local of `monte_carlo_price`. -/
noncomputable def mcDt (spec : MonteCarloSpec) : ℝ :=
  (spec.maturity : ℝ) / (spec.steps : ℝ)

/-- The `drift` local of `monte_carlo_price`. -/
noncomputable def mcDrift (spec : MonteCarloSpec) : ℝ :=
  ((spec.rate : ℝ) - 0.5 * (spec.volatility : ℝ) ^ 2) * mcDt spec

/-- The `diffusion` local of `monte_carlo_price`. -/
noncomputable def mcDiffusion (spec : MonteCarloSpec) : ℝ :=
  (spec.volatility : ℝ) * Real.sqrt (mcDt spec)

/-- The `i`-th simulated path of a `monte_carlo_price` call (trial `i`
consumes draws `i·steps, …, i·steps + steps − 1`). -/
noncomputable def mcPath (gauss : ℕ → ℝ) (spec : MonteCarloSpec) (i : ℕ) :
    List ℝ :=
  gbmPath gauss (mcDrift spec) (mcDiffusion spec) (spec.spot : ℝ)
    (i * spec.steps.toNat) spec.steps.toNat

/-- Specification-side Monte Carlo price: the mean of the payoffs of the
`simulations` GBM paths (trial `i` consuming draws `i·steps, …,
i·steps + steps − 1`), discounted by `exp(−rate·maturity)`. -/
noncomputable def mcSpecPrice (gauss : ℕ → ℝ) (spec : MonteCarloSpec)
    (payoff_fn : List ℝ → ℝ) : ℝ :=
  let dt : ℝ := (spec.maturity : ℝ) / (spec.steps : ℝ)
  let drift : ℝ := ((spec.rate : ℝ) - 0.5 * (spec.volatility : ℝ) ^ 2) * dt
  let diffusion : ℝ := (spec.volatility : ℝ) * Real.sqrt dt
  Real.exp (-(spec.rate : ℝ) * (spec.maturity : ℝ)) *
    ((∑ i ∈ Finset.range spec.simulations.toNat,
        payoff_fn (gbmPath gauss drift diffusion (spec.spot : ℝ)
          (i * spec.steps.toNat) spec.steps.toNat)) / (spec.simulations : ℝ))

end MonteCarlo

namespace Binomial

/-- The `OptionSpec` dataclass of `binomial_model.py` (fields only;
the `__post_init__` validation is `mkOptionSpec` below). The
`option_type` and `exercise` fields are Python strings. -/
structure OptionSpec where
  spot : ℚ
  strike : ℚ
  maturity : ℚ
  rate : ℚ
  volatility : ℚ
  steps : ℤ
  option_type : String
  exercise : String
deriving DecidableEq

/-- `OptionSpec.__post_init__`: the dataclass constructor including the
validation checks, in source order (steps, maturity, volatility, strike,
spot, option_type, exercise); `rate` is never checked. -/
def mkOptionSpec (spot strike maturity rate volatility : ℚ) (steps : ℤ)
    (option_type exercise : String) : Except String OptionSpec :=
  if steps ≤ 0 then Except.error "Number of steps must be positive"
  else if maturity ≤ 0 then Except.error "Maturity must be positive"
  else if volatility ≤ 0 then Except.error "Volatility must be positive"
  else if strike ≤ 0 then Except.error "Strike must be positive"
  else if spot ≤ 0 then Except.error "Spot must be positive"
  else if ¬(option_type = "call" ∨ option_type = "put") then
    Except.error "option_type must be \x27call\x27 or \x27put\x27"
  else if ¬(exercise = "european" ∨ exercise = "american") then
    Except.error "exercise must be \x27european\x27 or \x27american\x27"
  else Except.ok ⟨spot, strike, maturity, rate, volatility, steps, option_type, exercise⟩

/-- The module-level `payoff` helper of `binomial_model.py`. -/
noncomputable def payoff (price strike : ℝ) (option_type : String) : ℝ :=
  if option_type = "call" then max (price - strike) 0 else max (strike - price) 0

/-- `dt = spec.maturity / spec.steps`. -/
noncomputable def dt (spec : OptionSpec) : ℝ :=
  (spec.maturity : ℝ) / (spec.steps : ℝ)

/-- `u = math.exp(spec.volatility * math.sqrt(dt))`. -/
noncomputable def u (spec : OptionSpec) : ℝ :=
  Real.exp ((spec.volatility : ℝ) * Real.sqrt (dt spec))

/-- `d = 1 / u`. -/
noncomputable def d (spec : OptionSpec) : ℝ := 1 / u spec

/-- `disc = math.exp(-spec.rate * dt)`. -/
noncomputable def disc (spec : OptionSpec) : ℝ :=
  Real.exp (-(spec.rate : ℝ) * dt spec)

/-- `p = (math.exp(spec.rate * dt) - d) / (u - d)`. -/
noncomputable def p (spec : OptionSpec) : ℝ :=
  (Real.exp ((spec.rate : ℝ) * dt spec) - d spec) / (u spec - d spec)

/-- The terminal-layer list of `binomial_price`:
`payoff(spot * u**j * d**(steps-j))` for `j = 0..steps`. -/
noncomputable def terminalValues (spec : OptionSpec) : List ℝ :=
  (List.range (spec.steps.toNat + 1)).map fun j =>
    payoff ((spec.spot : ℝ) * u spec ^ j * d spec ^ (spec.steps.toNat - j))
      (spec.strike : ℝ) spec.option_type

/-- One iteration of the roll-back loop of `binomial_price` at layer
`step`: from the `step+2` values of the next layer, produce the `step+1`
values of this layer (continuation value, maximized with the immediate
exercise payoff when the exercise style is american). -/
noncomputable def layerStep (spec : OptionSpec) (step : ℕ) (values : List ℝ) :
    List ℝ :=
  (List.range (step + 1)).map fun up_moves =>
    let continuation :=
      disc spec * (p spec * values.getD (up_moves + 1) 0 +
        (1 - p spec) * values.getD up_moves 0)
    if spec.exercise = "american" then
      let price_at_node :=
        (spec.spot : ℝ) * u spec ^ up_moves * d spec ^ (step - up_moves)
      max continuation (payoff price_at_node (spec.strike : ℝ) spec.option_type)
    else continuation

/-- The `for step in range(spec.steps - 1, -1, -1)` loop of
`binomial_price`: `roll spec n values` applies `layerStep` at layers
`n-1, n-2, …, 0` in that order. -/
noncomputable def roll (spec : OptionSpec) : ℕ → List ℝ → List ℝ
  | 0, values => values
  | n + 1, values => roll spec n (layerStep spec n values)

/-- The value `binomial_price` computes when the risk-neutral
probability check passes: terminal layer rolled back to the root. -/
noncomputable def binomialValue (spec : OptionSpec) : ℝ :=
  (roll spec spec.steps.toNat (terminalValues spec)).getD 0 0

/-- `binomial_price` of `binomial_model.py`: the arbitrage check followed
by backward induction on the tree. -/
noncomputable def binomial_price (spec : OptionSpec) : Except String ℝ :=
  if 0 < p spec ∧ p spec < 1 then Except.ok (binomialValue spec)
  else Except.error "Risk-neutral probability is outside (0, 1). Check inputs."

/-- Specification-side node values of the CRR tree, by recursion on the
number `k` of layers below the terminal layer: `nodeValue spec k j` is
the value at node `(steps − k, j)`.  `k = 0` is the terminal payoff; the
recursive case is the discounted risk-neutral expectation of the two
successor nodes, maximized with immediate exercise for american style. -/
noncomputable def nodeValue (spec : OptionSpec) : ℕ → ℕ → ℝ
  | 0, j =>
    payoff ((spec.spot : ℝ) * u spec ^ j * d spec ^ (spec.steps.toNat - j))
      (spec.strike : ℝ) spec.option_type
  | k + 1, j =>
    let continuation :=
      disc spec * (p spec * nodeValue spec k (j + 1) +
        (1 - p spec) * nodeValue spec k j)
    if spec.exercise = "american" then
      max continuation
        (payoff ((spec.spot : ℝ) * u spec ^ j *
            d spec ^ (spec.steps.toNat - (k + 1) - j))
          (spec.strike : ℝ) spec.option_type)
    else continuation

/-- A sample european put specification (spot 100, strike 110, maturity
1, rate 0.05, volatility 0.3, one step), used to exercise the theorems
on concrete inputs. -/
def sampleEuro : OptionSpec :=
  ⟨100, 110, 1, 1/20, 3/10, 1, "put", "european"⟩

/-- The american-exercise variant of `sampleEuro`. -/
def sampleAmer : OptionSpec :=
  ⟨100, 110, 1, 1/20, 3/10, 1, "put", "american"⟩

end Binomial

/-- Reading index `i` of `(List.range n).map f` yields `f i`. -/
theorem getD_range_map {α : Type} (f : ℕ → α) (d : α) {i n : ℕ} (h : i < n) :
    ((List.range n).map f).getD i d = f i := by
  simp [List.getD_eq_getElem?_getD, List.getElem?_map, List.getElem?_range h]

namespace MonteCarlo

/-- Characterization of `pathLoop`: starting from the price after `k`
updates with draw counter `start + k`, running `n` more iterations
advances the price to `k + n` updates, advances the counter by `n`, and
appends the `n` intermediate prices to the accumulated path. -/
theorem pathLoop_eq (gauss : ℕ → ℝ) (drift diffusion spot : ℝ) (start : ℕ) :
    ∀ (n k : ℕ) (path : List ℝ),
      pathLoop gauss drift diffusion n
        (gbmPrice gauss drift diffusion spot start k, start + k, path) =
      (gbmPrice gauss drift diffusion spot start (k + n), start + (k + n),
        path ++ (List.range n).map
          (fun j => gbmPrice gauss drift diffusion spot start (k + 1 + j)))
  | 0, k, path => by simp [pathLoop]
  | n + 1, k, path => by
    have h1 : pathLoop gauss drift diffusion (n + 1)
        (gbmPrice gauss drift diffusion spot start k, start + k, path) =
        pathLoop gauss drift diffusion n
          (gbmPrice gauss drift diffusion spot start (k + 1), start + (k + 1),
            path ++ [gbmPrice gauss drift diffusion spot start (k + 1)]) := rfl
    rw [h1, pathLoop_eq gauss drift diffusion spot start n (k + 1) _]
    have h2 : k + 1 + n = k + (n + 1) := by omega
    rw [h2]
    have h4 : (List.range (n + 1)).map
        (fun j => gbmPrice gauss drift diffusion spot start (k + 1 + j)) =
        gbmPrice gauss drift diffusion spot start (k + 1) ::
          (List.range n).map
            (fun j => gbmPrice gauss drift diffusion spot start (k + 1 + 1 + j)) := by
      rw [List.range_succ_eq_map, List.map_cons, List.map_map]
      refine congrArg₂ _ rfl (List.map_congr_left fun j _ => ?_)
      have : k + 1 + (j + 1) = k + 1 + 1 + j := by omega
      simp [Function.comp, this]
    rw [h4]
    simp

/-- One whole trial: from `spot` with draw counter `start`, the inner
loop returns the terminal price, the counter advanced by `steps`, and
exactly the specification-side path `gbmPath`. -/
theorem pathLoop_trial (gauss : ℕ → ℝ) (drift diffusion spot : ℝ)
    (start steps : ℕ) :
    pathLoop gauss drift diffusion steps (spot, start, [spot]) =
      (gbmPrice gauss drift diffusion spot start steps, start + steps,
        gbmPath gauss drift diffusion spot start steps) := by
  have h0 := pathLoop_eq gauss drift diffusion spot start steps 0 [spot]
  have hs : gbmPrice gauss drift diffusion spot start 0 = spot := rfl
  simp only [Nat.add_zero, Nat.zero_add] at h0
  rw [hs] at h0
  rw [h0]
  have h4 : gbmPath gauss drift diffusion spot start steps =
      spot :: (List.range steps).map
        (fun j => gbmPrice gauss drift diffusion spot start (1 + j)) := by
    unfold gbmPath
    rw [List.range_succ_eq_map, List.map_cons, List.map_map]
    rw [← hs]
    refine congrArg₂ _ rfl (List.map_congr_left fun j _ => ?_)
    have h5 : j + 1 = 1 + j := by omega
    simp [Function.comp, ← h5]
  rw [h4]
  simp

/-- Characterization of `trialLoop`: after `m` completed trials (draw
counter `m · steps`), running `n` more trials adds the payoffs of paths
`m, m+1, …, m+n−1` to the running total. -/
theorem trialLoop_eq (gauss : ℕ → ℝ) (payoff_fn : List ℝ → ℝ)
    (drift diffusion spot : ℝ) (steps : ℕ) :
    ∀ (n m : ℕ) (total : ℝ),
      trialLoop gauss payoff_fn spot drift diffusion steps n (m * steps) total =
      total + ∑ i ∈ Finset.range n,
        payoff_fn (gbmPath gauss drift diffusion spot ((m + i) * steps) steps)
  | 0, m, total => by simp [trialLoop]
  | n + 1, m, total => by
    rw [trialLoop, pathLoop_trial]
    have hc : m * steps + steps = (m + 1) * steps := by ring
    rw [hc, trialLoop_eq gauss payoff_fn drift diffusion spot steps n (m + 1) _]
    rw [Finset.sum_range_succ']
    have hsum : ∀ i, (m + 1 + i) * steps = (m + (i + 1)) * steps := by
      intro i; ring_nf
    simp only [hsum, Nat.add_zero]
    linarith

/-- Normal form of the Monte Carlo engine: `monte_carlo_price` computes
exactly the discounted mean of the payoffs of the `simulations`
specification-side GBM paths. -/
theorem monte_carlo_price_eq_spec (gauss : ℕ → ℝ) (spec : MonteCarloSpec)
    (payoff_fn : List ℝ → ℝ) :
    monte_carlo_price gauss spec payoff_fn = mcSpecPrice gauss spec payoff_fn := by
  simp only [monte_carlo_price, mcSpecPrice]
  have h0 : (0 : ℕ) = 0 * spec.steps.toNat := by ring
  rw [h0, trialLoop_eq]
  simp

/-- On valid inputs, `mkMonteCarloSpec` succeeds and returns the record
of its arguments. -/
theorem mkMonteCarloSpec_ok (spot maturity rate volatility : ℚ)
    (simulations steps : ℤ) (seed : Option ℤ)
    (h1 : 0 < spot) (h2 : 0 < maturity) (h3 : 0 < volatility)
    (h4 : 0 < simulations) (h5 : 0 < steps) :
    mkMonteCarloSpec spot maturity rate volatility simulations steps seed =
      Except.ok ⟨spot, maturity, rate, volatility, simulations, steps, seed⟩ := by
  unfold mkMonteCarloSpec
  rw [if_neg (not_le.mpr h1), if_neg (not_le.mpr h2), if_neg (not_le.mpr h3),
    if_neg (not_le.mpr h4), if_neg (not_le.mpr h5)]

/-- `gbmPrice` only reads the draws of its own trial: two streams that
agree on the draws with indices `start, …, start + k − 1` produce the
same price after `k` updates. -/
theorem gbmPrice_congr (g1 g2 : ℕ → ℝ) (drift diffusion spot : ℝ)
    (start : ℕ) :
    ∀ k, (∀ j, j < k → g1 (start + j) = g2 (start + j)) →
      gbmPrice g1 drift diffusion spot start k =
        gbmPrice g2 drift diffusion spot start k
  | 0, _ => rfl
  | k + 1, h => by
    simp only [gbmPrice]
    rw [gbmPrice_congr g1 g2 drift diffusion spot start k
      (fun j hj => h j (by omega)), h k (by omega)]

/-- `gbmPath` only reads the draws of its own trial. -/
theorem gbmPath_congr (g1 g2 : ℕ → ℝ) (drift diffusion spot : ℝ)
    (start steps : ℕ)
    (h : ∀ j, j < steps → g1 (start + j) = g2 (start + j)) :
    gbmPath g1 drift diffusion spot start steps =
      gbmPath g2 drift diffusion spot start steps := by
  unfold gbmPath
  refine List.map_congr_left fun k hk => ?_
  rw [List.mem_range] at hk
  exact gbmPrice_congr g1 g2 drift diffusion spot start k
    (fun j hj => h j (by omega))

/-- Every simulated path has length `steps + 1`. -/
theorem gbmPath_length (gauss : ℕ → ℝ) (drift diffusion spot : ℝ)
    (start steps : ℕ) :
    (gbmPath gauss drift diffusion spot start steps).length = steps + 1 := by
  simp [gbmPath]

/-- Every simulated path starts at `spot`. -/
theorem gbmPath_head (gauss : ℕ → ℝ) (drift diffusion spot : ℝ)
    (start steps : ℕ) :
    (gbmPath gauss drift diffusion spot start steps).head? = some spot := by
  unfold gbmPath
  rw [List.range_succ_eq_map, List.map_cons]
  rfl

/-- Every element of a simulated path after the first is the previous
element times `exp(drift + diffusion·z)` for the trial's `k`-th draw. -/
theorem gbmPath_getD_succ (gauss : ℕ → ℝ) (drift diffusion spot : ℝ)
    (start steps k : ℕ) (hk : k < steps) :
    (gbmPath gauss drift diffusion spot start steps).getD (k + 1) 0 =
      (gbmPath gauss drift diffusion spot start steps).getD k 0 *
        Real.exp (drift + diffusion * gauss (start + k)) := by
  unfold gbmPath
  rw [getD_range_map _ _ (show k + 1 < steps + 1 by omega),
    getD_range_map _ _ (show k < steps + 1 by omega)]
  rfl

/-- If the payoff is everywhere non-negative, so is the
specification-side Monte Carlo price. -/
theorem mcSpecPrice_nonneg (gauss : ℕ → ℝ) (spec : MonteCarloSpec)
    (payoff_fn : List ℝ → ℝ) (h : ∀ path, 0 ≤ payoff_fn path) :
    0 ≤ mcSpecPrice gauss spec payoff_fn := by
  simp only [mcSpecPrice]
  rcases le_or_lt spec.simulations 0 with hs | hs
  · have hz : spec.simulations.toNat = 0 := Int.toNat_of_nonpos hs
    rw [hz]
    simp
  · apply mul_nonneg (Real.exp_pos _).le
    apply div_nonneg (Finset.sum_nonneg fun i _ => h _)
    exact_mod_cast hs.le

/-- If the first `kk` payoff evaluations succeed and the `kk`-th fails
with `e`, the trial loop returns exactly `error e` (the index arithmetic
is relative to `m` already-completed trials). -/
theorem trialLoopE_error {ε : Type} (gauss : ℕ → ℝ)
    (payoff_fn : List ℝ → Except ε ℝ) (spot drift diffusion : ℝ)
    (steps : ℕ) (e : ε) :
    ∀ (kk n m : ℕ) (total : ℝ), kk < n →
      (∀ i, i < kk → ∃ y, payoff_fn (gbmPath gauss drift diffusion spot
        ((m + i) * steps) steps) = Except.ok y) →
      payoff_fn (gbmPath gauss drift diffusion spot ((m + kk) * steps) steps) =
        Except.error e →
      trialLoopE gauss payoff_fn spot drift diffusion steps n (m * steps) total =
        Except.error e
  | 0, n, m, total => fun hn hok herr => by
    cases n with
    | zero => omega
    | succ n2 =>
      simp only [Nat.add_zero] at herr
      simp only [trialLoopE, pathLoop_trial]
      rw [herr]
  | kk + 1, n, m, total => fun hn hok herr => by
    cases n with
    | zero => omega
    | succ n2 =>
      obtain ⟨y, hy⟩ := hok 0 (by omega)
      simp only [Nat.add_zero] at hy
      simp only [trialLoopE, pathLoop_trial]
      rw [hy]
      have hc : m * steps + steps = (m + 1) * steps := by ring
      rw [hc]
      refine trialLoopE_error gauss payoff_fn spot drift diffusion steps e
        kk n2 (m + 1) (total + y) (by omega) ?_ ?_
      · intro i hi
        have hsh : m + 1 + i = m + (i + 1) := by omega
        rw [hsh]
        exact hok (i + 1) (by omega)
      · have hsh : m + 1 + kk = m + (kk + 1) := by omega
        rw [hsh]
        exact herr

/-- If the payoff fails on the first path it fails on, the whole Monte
Carlo call returns exactly that error. -/
theorem monte_carlo_priceE_error {ε : Type} (gauss : ℕ → ℝ)
    (spec : MonteCarloSpec) (payoff_fn : List ℝ → Except ε ℝ)
    (kk : ℕ) (e : ε) (hk : kk < spec.simulations.toNat)
    (hok : ∀ i, i < kk → ∃ y, payoff_fn (mcPath gauss spec i) = Except.ok y)
    (herr : payoff_fn (mcPath gauss spec kk) = Except.error e) :
    monte_carlo_priceE gauss spec payoff_fn = Except.error e := by
  simp only [monte_carlo_priceE]
  have h0 : (0 : ℕ) = 0 * spec.steps.toNat := by ring
  rw [h0]
  rw [trialLoopE_error gauss payoff_fn _ _ _ _ e kk spec.simulations.toNat
    0 0 hk ?_ ?_]
  · rfl
  · intro i hi
    have hsh : (0 + i) * spec.steps.toNat = i * spec.steps.toNat := by
      rw [Nat.zero_add]
    rw [hsh]
    exact hok i hi
  · have hsh : (0 + kk) * spec.steps.toNat = kk * spec.steps.toNat := by
      rw [Nat.zero_add]
    rw [hsh]
    exact herr

end MonteCarlo

namespace Binomial

/-- One roll-back step maps the specification-side values of layer `L+1`
to those of layer `L` (stated with `k` = layers below terminal, so layer
`L` has `k = steps − L`). -/
theorem layerStep_nodeValue (spec : OptionSpec) (L : ℕ)
    (h : L + 1 ≤ spec.steps.toNat) :
    layerStep spec L ((List.range (L + 2)).map
        (nodeValue spec (spec.steps.toNat - (L + 1)))) =
      (List.range (L + 1)).map (nodeValue spec (spec.steps.toNat - L)) := by
  unfold layerStep
  refine List.map_congr_left fun j hj => ?_
  rw [List.mem_range] at hj
  have hj2 : j + 1 < L + 2 := by omega
  have hj3 : j < L + 2 := by omega
  have hNL : spec.steps.toNat - L = (spec.steps.toNat - (L + 1)) + 1 := by omega
  rw [getD_range_map _ _ hj2, getD_range_map _ _ hj3, hNL]
  have hexp : spec.steps.toNat - (spec.steps.toNat - (L + 1) + 1) - j = L - j := by
    omega
  simp only [nodeValue, hexp]

/-- The roll-back loop started at layer `L` (with the specification-side
values of layer `L`) terminates in the singleton root value. -/
theorem roll_nodeValue (spec : OptionSpec) :
    ∀ L, L ≤ spec.steps.toNat →
      roll spec L ((List.range (L + 1)).map
          (nodeValue spec (spec.steps.toNat - L))) =
        [nodeValue spec spec.steps.toNat 0]
  | 0, _ => by
    simp [roll, List.range_succ]
  | L + 1, h => by
    rw [roll, layerStep_nodeValue spec L h,
      roll_nodeValue spec L (by omega)]

/-- Refinement: the list-based backward induction of `binomial_price`
computes exactly the recursive CRR node value at the root. -/
theorem binomialValue_eq_nodeValue (spec : OptionSpec) :
    binomialValue spec = nodeValue spec spec.steps.toNat 0 := by
  have hterm : terminalValues spec =
      (List.range (spec.steps.toNat + 1)).map
        (nodeValue spec (spec.steps.toNat - spec.steps.toNat)) := by
    rw [Nat.sub_self]
    rfl
  rw [binomialValue, hterm,
    roll_nodeValue spec spec.steps.toNat (le_refl _)]
  rfl

/-- On valid inputs, `mkOptionSpec` succeeds and returns the record of
its arguments. -/
theorem mkOptionSpec_ok (spot strike maturity rate volatility : ℚ)
    (steps : ℤ) (option_type exercise : String)
    (h1 : 0 < spot) (h2 : 0 < strike) (h3 : 0 < maturity)
    (h4 : 0 < volatility) (h5 : 0 < steps)
    (h6 : option_type = "call" ∨ option_type = "put")
    (h7 : exercise = "european" ∨ exercise = "american") :
    mkOptionSpec spot strike maturity rate volatility steps option_type exercise =
      Except.ok ⟨spot, strike, maturity, rate, volatility, steps,
        option_type, exercise⟩ := by
  unfold mkOptionSpec
  rw [if_neg (not_le.mpr h5), if_neg (not_le.mpr h3), if_neg (not_le.mpr h4),
    if_neg (not_le.mpr h2), if_neg (not_le.mpr h1),
    if_neg (not_not_intro h6), if_neg (not_not_intro h7)]

/-- The `payoff` helper never returns a negative value. -/
theorem payoff_nonneg (price strike : ℝ) (option_type : String) :
    0 ≤ payoff price strike option_type := by
  unfold payoff
  split <;> exact le_max_right _ _

/-- When the risk-neutral probability lies in `[0, 1]`, every CRR node
value is non-negative. -/
theorem nodeValue_nonneg (spec : OptionSpec)
    (hp0 : 0 ≤ p spec) (hp1 : p spec ≤ 1) :
    ∀ k j, 0 ≤ nodeValue spec k j
  | 0, j => payoff_nonneg _ _ _
  | k + 1, j => by
    have ha := nodeValue_nonneg spec hp0 hp1 k (j + 1)
    have hb := nodeValue_nonneg spec hp0 hp1 k j
    have hdisc : 0 ≤ disc spec := (Real.exp_pos _).le
    have hcont : 0 ≤ disc spec * (p spec * nodeValue spec k (j + 1) +
        (1 - p spec) * nodeValue spec k j) := by
      apply mul_nonneg hdisc
      apply add_nonneg (mul_nonneg hp0 ha)
      exact mul_nonneg (by linarith) hb
    simp only [nodeValue]
    split
    · exact le_trans hcont (le_max_left _ _)
    · exact hcont

/-- Node-by-node comparison: with the same market parameters and
contract, the american-exercise node value dominates the
european-exercise node value, provided the risk-neutral probability lies
in `[0, 1]`. -/
theorem nodeValue_amer_ge (spot strike maturity rate volatility : ℚ)
    (steps : ℤ) (option_type : String)
    (hp0 : 0 ≤ p ⟨spot, strike, maturity, rate, volatility, steps,
      option_type, "european"⟩)
    (hp1 : p ⟨spot, strike, maturity, rate, volatility, steps,
      option_type, "european"⟩ ≤ 1) :
    ∀ k j,
      nodeValue ⟨spot, strike, maturity, rate, volatility, steps,
        option_type, "european"⟩ k j ≤
      nodeValue ⟨spot, strike, maturity, rate, volatility, steps,
        option_type, "american"⟩ k j
  | 0, j => le_of_eq rfl
  | k + 1, j => by
    have ha := nodeValue_amer_ge spot strike maturity rate volatility steps
      option_type hp0 hp1 k (j + 1)
    have hb := nodeValue_amer_ge spot strike maturity rate volatility steps
      option_type hp0 hp1 k j
    have hdisc : (0 : ℝ) ≤ disc ⟨spot, strike, maturity, rate, volatility,
        steps, option_type, "european"⟩ := (Real.exp_pos _).le
    simp only [nodeValue]
    rw [if_neg (show ¬("european" = "american") by simp)]
    rw [if_pos trivial]
    refine le_trans ?_ (le_max_left _ _)
    apply mul_le_mul_of_nonneg_left ?_ hdisc
    have hpa : p ⟨spot, strike, maturity, rate, volatility, steps,
        option_type, "american"⟩ = p ⟨spot, strike, maturity, rate,
        volatility, steps, option_type, "european"⟩ := rfl
    rw [hpa]
    exact add_le_add (mul_le_mul_of_nonneg_left ha hp0)
      (mul_le_mul_of_nonneg_left hb (by linarith))

/-- The time step of the sample specification is 1. -/
theorem sampleEuro_dt : dt sampleEuro = 1 := by
  unfold dt sampleEuro
  norm_num

/-- The up factor of the sample specification. -/
theorem sampleEuro_u : u sampleEuro = Real.exp (3 / 10) := by
  unfold u
  rw [sampleEuro_dt, Real.sqrt_one]
  norm_num [sampleEuro]

/-- The risk-neutral probability of the sample specification. -/
theorem sampleEuro_p : p sampleEuro =
    (Real.exp (1 / 20) - (Real.exp (3 / 10))⁻¹) /
      (Real.exp (3 / 10) - (Real.exp (3 / 10))⁻¹) := by
  unfold p d
  rw [sampleEuro_u, sampleEuro_dt]
  norm_num [sampleEuro]

/-- The sample specification passes the arbitrage check. -/
theorem sampleEuro_p_bounds : 0 < p sampleEuro ∧ p sampleEuro < 1 := by
  rw [sampleEuro_p]
  have hd : (Real.exp ((3 : ℝ) / 10))⁻¹ = Real.exp (-(3 / 10)) := by
    rw [Real.exp_neg]
  rw [hd]
  have h1 : Real.exp (-((3 : ℝ) / 10)) < Real.exp (1 / 20) :=
    Real.exp_lt_exp.mpr (by norm_num)
  have h2 : Real.exp (-((3 : ℝ) / 10)) < Real.exp (3 / 10) :=
    Real.exp_lt_exp.mpr (by norm_num)
  have h3 : Real.exp ((1 : ℝ) / 20) < Real.exp (3 / 10) :=
    Real.exp_lt_exp.mpr (by norm_num)
  constructor
  · exact div_pos (by linarith) (by linarith)
  · rw [div_lt_one (by linarith)]
    linarith

/-- On the sample european specification, `binomial_price` returns its
rolled-back value. -/
theorem sampleEuro_price_ok :
    binomial_price sampleEuro = Except.ok (binomialValue sampleEuro) := by
  unfold binomial_price
  rw [if_pos sampleEuro_p_bounds]

/-- On the sample american specification, `binomial_price` returns its
rolled-back value (its risk-neutral probability is definitionally that
of the european sample). -/
theorem sampleAmer_price_ok :
    binomial_price sampleAmer = Except.ok (binomialValue sampleAmer) := by
  unfold binomial_price
  rw [if_pos (show 0 < p sampleAmer ∧ p sampleAmer < 1 from sampleEuro_p_bounds)]

end Binomial

/-- C1: `monte_carlo_price` computes exactly the specified algorithm:
with `dt = maturity/steps`, `drift = (rate − 0.5·volatility²)·dt` and
`diffusion = volatility·√dt` (the definitions `mcDrift` and
`mcDiffusion`), it returns the mean payoff over the `simulations`
simulated paths multiplied by `exp(−rate·maturity)`, where path `i` has
length exactly `steps + 1`, starts at `spot`, and each subsequent
element is the previous price times `exp(drift + diffusion·z)` for one
fresh standard-normal draw `z`. -/
theorem c1_monte_carlo_algorithm (gauss : ℕ → ℝ)
    (spec : MonteCarlo.MonteCarloSpec) (payoff_fn : List ℝ → ℝ) :
    MonteCarlo.monte_carlo_price gauss spec payoff_fn =
      Real.exp (-(spec.rate : ℝ) * (spec.maturity : ℝ)) *
        ((∑ i ∈ Finset.range spec.simulations.toNat,
            payoff_fn (MonteCarlo.mcPath gauss spec i)) /
          (spec.simulations : ℝ)) ∧
    ∀ i : ℕ,
      (MonteCarlo.mcPath gauss spec i).length = spec.steps.toNat + 1 ∧
      (MonteCarlo.mcPath gauss spec i).head? = some (spec.spot : ℝ) ∧
      ∀ k, k < spec.steps.toNat →
        (MonteCarlo.mcPath gauss spec i).getD (k + 1) 0 =
          (MonteCarlo.mcPath gauss spec i).getD k 0 *
            Real.exp (MonteCarlo.mcDrift spec +
              MonteCarlo.mcDiffusion spec *
                gauss (i * spec.steps.toNat + k)) := by
  refine ⟨?_, fun i => ⟨?_, ?_, fun k hk => ?_⟩⟩
  · rw [MonteCarlo.monte_carlo_price_eq_spec]
    rfl
  · exact MonteCarlo.gbmPath_length gauss (MonteCarlo.mcDrift spec)
      (MonteCarlo.mcDiffusion spec) (spec.spot : ℝ)
      (i * spec.steps.toNat) spec.steps.toNat
  · exact MonteCarlo.gbmPath_head gauss (MonteCarlo.mcDrift spec)
      (MonteCarlo.mcDiffusion spec) (spec.spot : ℝ)
      (i * spec.steps.toNat) spec.steps.toNat
  · exact MonteCarlo.gbmPath_getD_succ gauss (MonteCarlo.mcDrift spec)
      (MonteCarlo.mcDiffusion spec) (spec.spot : ℝ)
      (i * spec.steps.toNat) spec.steps.toNat k hk

/-- C1 witness: the path-update recurrence evaluated on a concrete
specification at the first step of the first trial. -/
theorem c1_witness :
    (MonteCarlo.mcPath (fun _ => 0) ⟨100, 1, 1/20, 1/5, 2, 1, none⟩ 0).getD 1 0 =
      (MonteCarlo.mcPath (fun _ => 0) ⟨100, 1, 1/20, 1/5, 2, 1, none⟩ 0).getD 0 0 *
        Real.exp (MonteCarlo.mcDrift ⟨100, 1, 1/20, 1/5, 2, 1, none⟩ +
          MonteCarlo.mcDiffusion ⟨100, 1, 1/20, 1/5, 2, 1, none⟩ *
            (fun _ => (0 : ℝ)) (0 * (1 : ℤ).toNat + 0)) :=
  ((c1_monte_carlo_algorithm (fun _ => 0) ⟨100, 1, 1/20, 1/5, 2, 1, none⟩
    (fun _ => 0)).2 0).2.2 0 (by decide)

/-- C2: `binomial_price` implements the CRR scheme exactly: with the
calibration `dt`, `u`, `d`, `disc`, `p` as defined, it returns the root
of the backward induction whose terminal values are the payoffs at
`spot·u^j·d^(steps−j)` and whose interior nodes take the discounted
risk-neutral continuation value, maximized with immediate exercise for
american style (the recursive characterization `nodeValue`), raising the
arbitrage error when `p` is outside `(0, 1)`. -/
theorem c2_binomial_crr_scheme (spec : Binomial.OptionSpec) :
    Binomial.binomial_price spec =
      if 0 < Binomial.p spec ∧ Binomial.p spec < 1 then
        Except.ok (Binomial.nodeValue spec spec.steps.toNat 0)
      else
        Except.error "Risk-neutral probability is outside (0, 1). Check inputs." := by
  unfold Binomial.binomial_price
  rw [Binomial.binomialValue_eq_nodeValue]

/-- C3: determinism with a seed: the price is a pure function of the
specification, the payoff, and the draw stream produced by the seed
(the stream is constructed locally inside the call from `spec.seed`
alone, never from shared state), and it only reads the
`simulations·steps` draws it consumes, so two calls whose streams agree
on those draws return identical prices. -/
theorem c3_seed_determinism (g1 g2 : ℕ → ℝ)
    (spec : MonteCarlo.MonteCarloSpec) (payoff_fn : List ℝ → ℝ)
    (h : ∀ i, i < spec.simulations.toNat * spec.steps.toNat → g1 i = g2 i) :
    MonteCarlo.monte_carlo_price g1 spec payoff_fn =
      MonteCarlo.monte_carlo_price g2 spec payoff_fn := by
  rw [MonteCarlo.monte_carlo_price_eq_spec, MonteCarlo.monte_carlo_price_eq_spec]
  simp only [MonteCarlo.mcSpecPrice]
  have hsum : (∑ i ∈ Finset.range spec.simulations.toNat,
      payoff_fn (MonteCarlo.gbmPath g1
        (((spec.rate : ℝ) - 0.5 * (spec.volatility : ℝ) ^ 2) *
          ((spec.maturity : ℝ) / (spec.steps : ℝ)))
        ((spec.volatility : ℝ) * Real.sqrt ((spec.maturity : ℝ) / (spec.steps : ℝ)))
        (spec.spot : ℝ) (i * spec.steps.toNat) spec.steps.toNat)) =
      ∑ i ∈ Finset.range spec.simulations.toNat,
      payoff_fn (MonteCarlo.gbmPath g2
        (((spec.rate : ℝ) - 0.5 * (spec.volatility : ℝ) ^ 2) *
          ((spec.maturity : ℝ) / (spec.steps : ℝ)))
        ((spec.volatility : ℝ) * Real.sqrt ((spec.maturity : ℝ) / (spec.steps : ℝ)))
        (spec.spot : ℝ) (i * spec.steps.toNat) spec.steps.toNat) := by
    refine Finset.sum_congr rfl fun i hi => ?_
    rw [Finset.mem_range] at hi
    refine congrArg _ (MonteCarlo.gbmPath_congr g1 g2 _ _ _ _ _ fun j hj => ?_)
    apply h
    have h1 : i * spec.steps.toNat + j < (i + 1) * spec.steps.toNat := by
      rw [Nat.succ_mul]
      omega
    have h2 : (i + 1) * spec.steps.toNat ≤
        spec.simulations.toNat * spec.steps.toNat :=
      Nat.mul_le_mul_right _ (by omega)
    omega
  rw [hsum]

/-- C3 witness: two calls with the same stream on a concrete
specification agree. -/
theorem c3_witness :
    MonteCarlo.monte_carlo_price (fun _ => 0) ⟨100, 1, 1/20, 1/5, 2, 1, some 7⟩
        (fun path => path.getLastD 0) =
      MonteCarlo.monte_carlo_price (fun _ => 0) ⟨100, 1, 1/20, 1/5, 2, 1, some 7⟩
        (fun path => path.getLastD 0) :=
  c3_seed_determinism (fun _ => 0) (fun _ => 0) ⟨100, 1, 1/20, 1/5, 2, 1, some 7⟩
    (fun path => path.getLastD 0) (fun _ _ => rfl)

/-- C4: boundary validation at construction: each constructor succeeds
exactly when every checked field is in domain; when a single numeric
field is out of domain (the earlier checks in source order passing), the
error message names that field; an unrecognized option-kind or
exercise-style string is rejected with a message naming the field. -/
theorem c4_boundary_validation
    (spot strike maturity rate volatility : ℚ) (simulations steps : ℤ)
    (seed : Option ℤ) (option_type exercise : String) :
    ((∃ s, MonteCarlo.mkMonteCarloSpec spot maturity rate volatility
        simulations steps seed = Except.ok s) ↔
      (0 < spot ∧ 0 < maturity ∧ 0 < volatility ∧ 0 < simulations ∧ 0 < steps)) ∧
    ((∃ s, Binomial.mkOptionSpec spot strike maturity rate volatility
        steps option_type exercise = Except.ok s) ↔
      (0 < spot ∧ 0 < strike ∧ 0 < maturity ∧ 0 < volatility ∧ 0 < steps ∧
        (option_type = "call" ∨ option_type = "put") ∧
        (exercise = "european" ∨ exercise = "american"))) ∧
    (spot ≤ 0 →
      MonteCarlo.mkMonteCarloSpec spot maturity rate volatility simulations
        steps seed = Except.error "Spot must be positive") ∧
    (0 < spot → maturity ≤ 0 →
      MonteCarlo.mkMonteCarloSpec spot maturity rate volatility simulations
        steps seed = Except.error "Maturity must be positive") ∧
    (0 < spot → 0 < maturity → volatility ≤ 0 →
      MonteCarlo.mkMonteCarloSpec spot maturity rate volatility simulations
        steps seed = Except.error "Volatility must be positive") ∧
    (0 < spot → 0 < maturity → 0 < volatility → simulations ≤ 0 →
      MonteCarlo.mkMonteCarloSpec spot maturity rate volatility simulations
        steps seed = Except.error "Number of simulations must be positive") ∧
    (0 < spot → 0 < maturity → 0 < volatility → 0 < simulations → steps ≤ 0 →
      MonteCarlo.mkMonteCarloSpec spot maturity rate volatility simulations
        steps seed = Except.error "Number of time steps must be positive") ∧
    (steps ≤ 0 →
      Binomial.mkOptionSpec spot strike maturity rate volatility steps
        option_type exercise = Except.error "Number of steps must be positive") ∧
    (0 < steps → maturity ≤ 0 →
      Binomial.mkOptionSpec spot strike maturity rate volatility steps
        option_type exercise = Except.error "Maturity must be positive") ∧
    (0 < steps → 0 < maturity → volatility ≤ 0 →
      Binomial.mkOptionSpec spot strike maturity rate volatility steps
        option_type exercise = Except.error "Volatility must be positive") ∧
    (0 < steps → 0 < maturity → 0 < volatility → strike ≤ 0 →
      Binomial.mkOptionSpec spot strike maturity rate volatility steps
        option_type exercise = Except.error "Strike must be positive") ∧
    (0 < steps → 0 < maturity → 0 < volatility → 0 < strike → spot ≤ 0 →
      Binomial.mkOptionSpec spot strike maturity rate volatility steps
        option_type exercise = Except.error "Spot must be positive") ∧
    (0 < steps → 0 < maturity → 0 < volatility → 0 < strike → 0 < spot →
      ¬(option_type = "call" ∨ option_type = "put") →
      Binomial.mkOptionSpec spot strike maturity rate volatility steps
        option_type exercise =
        Except.error "option_type must be \x27call\x27 or \x27put\x27") ∧
    (0 < steps → 0 < maturity → 0 < volatility → 0 < strike → 0 < spot →
      (option_type = "call" ∨ option_type = "put") →
      ¬(exercise = "european" ∨ exercise = "american") →
      Binomial.mkOptionSpec spot strike maturity rate volatility steps
        option_type exercise =
        Except.error "exercise must be \x27european\x27 or \x27american\x27") := by
  refine ⟨?_, ?_, ?_, ?_, ?_, ?_, ?_, ?_, ?_, ?_, ?_, ?_, ?_, ?_⟩
  · constructor
    · rintro ⟨s, hs⟩
      unfold MonteCarlo.mkMonteCarloSpec at hs
      split_ifs at hs with h1 h2 h3 h4 h5
      exact ⟨not_le.mp h1, not_le.mp h2, not_le.mp h3,
        not_le.mp h4, not_le.mp h5⟩
    · rintro ⟨h1, h2, h3, h4, h5⟩
      exact ⟨_, MonteCarlo.mkMonteCarloSpec_ok spot maturity rate volatility
        simulations steps seed h1 h2 h3 h4 h5⟩
  · constructor
    · rintro ⟨s, hs⟩
      unfold Binomial.mkOptionSpec at hs
      split_ifs at hs with h1 h2 h3 h4 h5 h6 h7
      exact ⟨not_le.mp h5, not_le.mp h4, not_le.mp h2, not_le.mp h3,
        not_le.mp h1, h6, h7⟩
    · rintro ⟨h1, h2, h3, h4, h5, h6, h7⟩
      exact ⟨_, Binomial.mkOptionSpec_ok spot strike maturity rate volatility
        steps option_type exercise h1 h2 h3 h4 h5 h6 h7⟩
  · intro h1
    simp [MonteCarlo.mkMonteCarloSpec, h1]
  · intro h1 h2
    simp [MonteCarlo.mkMonteCarloSpec, not_le.mpr h1, h2]
  · intro h1 h2 h3
    simp [MonteCarlo.mkMonteCarloSpec, not_le.mpr h1, not_le.mpr h2, h3]
  · intro h1 h2 h3 h4
    simp [MonteCarlo.mkMonteCarloSpec, not_le.mpr h1, not_le.mpr h2,
      not_le.mpr h3, h4]
  · intro h1 h2 h3 h4 h5
    simp [MonteCarlo.mkMonteCarloSpec, not_le.mpr h1, not_le.mpr h2,
      not_le.mpr h3, not_le.mpr h4, h5]
  · intro h1
    simp [Binomial.mkOptionSpec, h1]
  · intro h1 h2
    simp [Binomial.mkOptionSpec, not_le.mpr h1, h2]
  · intro h1 h2 h3
    simp [Binomial.mkOptionSpec, not_le.mpr h1, not_le.mpr h2, h3]
  · intro h1 h2 h3 h4
    simp [Binomial.mkOptionSpec, not_le.mpr h1, not_le.mpr h2,
      not_le.mpr h3, h4]
  · intro h1 h2 h3 h4 h5
    simp [Binomial.mkOptionSpec, not_le.mpr h1, not_le.mpr h2,
      not_le.mpr h3, not_le.mpr h4, h5]
  · intro h1 h2 h3 h4 h5 h6
    simp [Binomial.mkOptionSpec, not_le.mpr h1, not_le.mpr h2,
      not_le.mpr h3, not_le.mpr h4, not_le.mpr h5, h6]
  · intro h1 h2 h3 h4 h5 h6 h7
    simp [Binomial.mkOptionSpec, not_le.mpr h1, not_le.mpr h2,
      not_le.mpr h3, not_le.mpr h4, not_le.mpr h5, h6, h7]

/-- C4 witness: a non-positive spot is rejected with the message naming
the spot field, on concrete inputs. -/
theorem c4_witness :
    MonteCarlo.mkMonteCarloSpec (-1) 1 (1/20) (1/5) 10 1 none =
      Except.error "Spot must be positive" :=
  (c4_boundary_validation (-1) 110 1 (1/20) (1/5) 10 1 none "call"
    "european").2.2.1 (by decide)

/-- C5: `binomial_price` fails with the arbitrage-violation error if and
only if the calibrated risk-neutral probability `p` does not lie
strictly inside `(0, 1)`; when it does, no error is raised. -/
theorem c5_arbitrage_check (spec : Binomial.OptionSpec) :
    (∃ msg, Binomial.binomial_price spec = Except.error msg) ↔
      ¬(0 < Binomial.p spec ∧ Binomial.p spec < 1) := by
  unfold Binomial.binomial_price
  split_ifs with h
  · simp [h]
  · simp [h]

/-- C6: non-negativity: whenever `binomial_price` returns a value it is
≥ 0, and `monte_carlo_price` with a standard terminal call or put payoff
always returns a value ≥ 0. -/
theorem c6_nonnegativity :
    (∀ (spec : Binomial.OptionSpec) (x : ℝ),
        Binomial.binomial_price spec = Except.ok x → 0 ≤ x) ∧
    (∀ (gauss : ℕ → ℝ) (spec : MonteCarlo.MonteCarloSpec) (strike : ℚ),
        0 ≤ MonteCarlo.monte_carlo_price gauss spec
          (MonteCarlo.callPayoff strike) ∧
        0 ≤ MonteCarlo.monte_carlo_price gauss spec
          (MonteCarlo.putPayoff strike)) := by
  constructor
  · intro spec x hx
    unfold Binomial.binomial_price at hx
    split_ifs at hx with h
    injection hx with hx2
    rw [← hx2, Binomial.binomialValue_eq_nodeValue]
    exact Binomial.nodeValue_nonneg spec h.1.le h.2.le _ _
  · intro gauss spec strike
    constructor
    · rw [MonteCarlo.monte_carlo_price_eq_spec]
      exact MonteCarlo.mcSpecPrice_nonneg gauss spec _
        (fun path => le_max_right _ _)
    · rw [MonteCarlo.monte_carlo_price_eq_spec]
      exact MonteCarlo.mcSpecPrice_nonneg gauss spec _
        (fun path => le_max_right _ _)

/-- C6 witness: the binomial half applied to the concrete sample put,
whose pricing call concretely returns `Except.ok`. -/
theorem c6_witness : 0 ≤ Binomial.binomialValue Binomial.sampleEuro :=
  c6_nonnegativity.1 Binomial.sampleEuro _ Binomial.sampleEuro_price_ok

/-- C7: early-exercise monotonicity: for two valid put specifications
identical except for the exercise style, whenever both pricing calls
return, the american price dominates the european price. -/
theorem c7_american_put_ge_european
    (spot strike maturity rate volatility : ℚ) (steps : ℤ) (x y : ℝ)
    (hA : Binomial.binomial_price ⟨spot, strike, maturity, rate, volatility,
      steps, "put", "american"⟩ = Except.ok x)
    (hE : Binomial.binomial_price ⟨spot, strike, maturity, rate, volatility,
      steps, "put", "european"⟩ = Except.ok y) :
    y ≤ x := by
  unfold Binomial.binomial_price at hA hE
  split_ifs at hA with h1
  split_ifs at hE with h2
  injection hA with hA2
  injection hE with hE2
  rw [← hA2, ← hE2, Binomial.binomialValue_eq_nodeValue,
    Binomial.binomialValue_eq_nodeValue]
  exact Binomial.nodeValue_amer_ge spot strike maturity rate volatility steps
    "put" h2.1.le h2.2.le steps.toNat 0

/-- C7 witness: the sample put specifications, on which both pricing
calls concretely return `Except.ok`. -/
theorem c7_witness :
    Binomial.binomialValue Binomial.sampleEuro ≤
      Binomial.binomialValue Binomial.sampleAmer :=
  c7_american_put_ge_european 100 110 1 (1/20) (3/10) 1 _ _
    Binomial.sampleAmer_price_ok Binomial.sampleEuro_price_ok

/-- C8: a failing payoff aborts the whole call: if the payoff succeeds
on the first `kk` simulated paths and fails with error `e` on path `kk`,
the pricing call returns exactly `error e` (no aggregate is produced,
and the payoff values on any later path are irrelevant since
`payoff_fn` is unconstrained there). -/
theorem c8_payoff_failure_aborts {ε : Type} (gauss : ℕ → ℝ)
    (spec : MonteCarlo.MonteCarloSpec) (payoff_fn : List ℝ → Except ε ℝ)
    (kk : ℕ) (e : ε) (hk : kk < spec.simulations.toNat)
    (hok : ∀ i, i < kk →
      ∃ y, payoff_fn (MonteCarlo.mcPath gauss spec i) = Except.ok y)
    (herr : payoff_fn (MonteCarlo.mcPath gauss spec kk) = Except.error e) :
    MonteCarlo.monte_carlo_priceE gauss spec payoff_fn = Except.error e :=
  MonteCarlo.monte_carlo_priceE_error gauss spec payoff_fn kk e hk hok herr

/-- C8 witness: a payoff that always fails makes the concrete pricing
call return exactly its error. -/
theorem c8_witness :
    MonteCarlo.monte_carlo_priceE (fun _ => 0) ⟨100, 1, 1/20, 1/5, 2, 1, none⟩
      (fun _ => Except.error "payoff failed") = Except.error "payoff failed" :=
  c8_payoff_failure_aborts (fun _ => 0) ⟨100, 1, 1/20, 1/5, 2, 1, none⟩
    (fun _ => Except.error "payoff failed") 0 "payoff failed" (by decide)
    (fun i hi => absurd hi (Nat.not_lt_zero i)) rfl

/-- C9: the payoff factories reject `strike ≤ 0` and only then; on a
positive strike they return the closure reading only the last element of
the path and applying the standard call/put formula. -/
theorem c9_payoff_library (strike : ℚ) :
    ((∃ msg, MonteCarlo.european_call_payoff strike = Except.error msg) ↔
      strike ≤ 0) ∧
    ((∃ msg, MonteCarlo.european_put_payoff strike = Except.error msg) ↔
      strike ≤ 0) ∧
    (0 < strike →
      MonteCarlo.european_call_payoff strike =
        Except.ok (MonteCarlo.callPayoff strike) ∧
      MonteCarlo.european_put_payoff strike =
        Except.ok (MonteCarlo.putPayoff strike)) ∧
    (∀ (path : List ℝ) (h : path ≠ []),
      MonteCarlo.callPayoff strike path =
        max (path.getLast h - (strike : ℝ)) 0 ∧
      MonteCarlo.putPayoff strike path =
        max ((strike : ℝ) - path.getLast h) 0) ∧
    (∀ path1 path2 : List ℝ, path1.getLastD 0 = path2.getLastD 0 →
      MonteCarlo.callPayoff strike path1 = MonteCarlo.callPayoff strike path2 ∧
      MonteCarlo.putPayoff strike path1 = MonteCarlo.putPayoff strike path2) := by
  refine ⟨?_, ?_, fun hpos => ⟨?_, ?_⟩, fun path h => ⟨?_, ?_⟩,
    fun path1 path2 hlast => ⟨?_, ?_⟩⟩
  · unfold MonteCarlo.european_call_payoff
    split_ifs with h
    · simp [h]
    · simp [h]
  · unfold MonteCarlo.european_put_payoff
    split_ifs with h
    · simp [h]
    · simp [h]
  · unfold MonteCarlo.european_call_payoff
    rw [if_neg (not_le.mpr hpos)]
  · unfold MonteCarlo.european_put_payoff
    rw [if_neg (not_le.mpr hpos)]
  · unfold MonteCarlo.callPayoff
    rw [List.getLastD_eq_getLast?, List.getLast?_eq_getLast path h]
    rfl
  · unfold MonteCarlo.putPayoff
    rw [List.getLastD_eq_getLast?, List.getLast?_eq_getLast path h]
    rfl
  · unfold MonteCarlo.callPayoff
    rw [hlast]
  · unfold MonteCarlo.putPayoff
    rw [hlast]

/-- C9 witness: the factories succeed on strike 100 and return the
terminal-payoff closures. -/
theorem c9_witness :
    MonteCarlo.european_call_payoff 100 =
        Except.ok (MonteCarlo.callPayoff 100) ∧
      MonteCarlo.european_put_payoff 100 =
        Except.ok (MonteCarlo.putPayoff 100) :=
  (c9_payoff_library 100).2.2.1 (by decide)

/-- C10: the `rate` field is never validated: for every rate, including
zero and negative values, constructing either specification with
otherwise-valid fields succeeds and returns the record unchanged (so the
pricing entry points, which are total on the record types, accept it). -/
theorem c10_rate_never_validated
    (spot strike maturity volatility rate : ℚ) (simulations steps : ℤ)
    (seed : Option ℤ) (option_type exercise : String)
    (h1 : 0 < spot) (h2 : 0 < strike) (h3 : 0 < maturity) (h4 : 0 < volatility)
    (h5 : 0 < simulations) (h6 : 0 < steps)
    (h7 : option_type = "call" ∨ option_type = "put")
    (h8 : exercise = "european" ∨ exercise = "american") :
    MonteCarlo.mkMonteCarloSpec spot maturity rate volatility simulations
        steps seed =
      Except.ok ⟨spot, maturity, rate, volatility, simulations, steps, seed⟩ ∧
    Binomial.mkOptionSpec spot strike maturity rate volatility steps
        option_type exercise =
      Except.ok ⟨spot, strike, maturity, rate, volatility, steps,
        option_type, exercise⟩ :=
  ⟨MonteCarlo.mkMonteCarloSpec_ok spot maturity rate volatility simulations
      steps seed h1 h3 h4 h5 h6,
    Binomial.mkOptionSpec_ok spot strike maturity rate volatility steps
      option_type exercise h1 h2 h3 h4 h6 h7 h8⟩

/-- C10 witness: both constructors succeed on a negative rate. -/
theorem c10_witness :
    MonteCarlo.mkMonteCarloSpec 100 1 (-3) 2 10 2 none =
      Except.ok ⟨100, 1, -3, 2, 10, 2, none⟩ ∧
    Binomial.mkOptionSpec 100 110 1 (-3) 2 2 "put" "american" =
      Except.ok ⟨100, 110, 1, -3, 2, 2, "put", "american"⟩ :=
  c10_rate_never_validated 100 110 1 2 (-3) 10 2 none "put" "american"
    (by decide) (by decide) (by decide) (by decide) (by decide) (by decide)
    (Or.inr rfl) (Or.inr rfl)

/-- C2 witness: the CRR characterization instantiated at the concrete
sample specification. -/
theorem c2_witness :
    Binomial.binomial_price Binomial.sampleEuro =
      if 0 < Binomial.p Binomial.sampleEuro ∧
          Binomial.p Binomial.sampleEuro < 1 then
        Except.ok (Binomial.nodeValue Binomial.sampleEuro
          Binomial.sampleEuro.steps.toNat 0)
      else
        Except.error "Risk-neutral probability is outside (0, 1). Check inputs." :=
  c2_binomial_crr_scheme Binomial.sampleEuro

/-- C5 witness: the arbitrage-check characterization instantiated at the
concrete sample specification. -/
theorem c5_witness :
    (∃ msg, Binomial.binomial_price Binomial.sampleEuro = Except.error msg) ↔
      ¬(0 < Binomial.p Binomial.sampleEuro ∧
        Binomial.p Binomial.sampleEuro < 1) :=
  c5_arbitrage_check Binomial.sampleEuro
